import Mathlib

/-!
# Bitwise operators demonstration (`BitwiseOperators/main.cpp`)

A shallow embedding of the single function `main` of the program.

* `unsigned int foo` is a natural number below `2^32`;
* `int bar` is an integer in `[-2^31, 2^31)`; the bit operations on it act on
  its 32-bit two's-complement pattern (`toU32`) and read the result back as a
  signed value (`toInt32`);
* `char myString[13]` is a list of 13 byte patterns (naturals below `256`);
* the standard output is the list of the byte strings written by the
  successive `printf` calls; a call whose behaviour the language leaves
  undefined is recorded as `none`, and the statements after it are executed
  as usual.

What the language leaves to the implementation is gathered in `Impl`: the
result of `>>` on a negative `int`, the signedness of `char`, and the bytes
that lie in memory behind `myString`.

The blocks of `main` take as parameters the constants that the properties
below vary (the bit index, the values assigned, the mask byte); `run` calls
them with the constants of the program.
-/

namespace BitwiseOperators

/-! ## Machine integers -/

/-- Conversion of an integer to `unsigned int`: the value modulo `2^32`. -/
def toU32 (x : Int) : Nat := (x % 4294967296).toNat

/-- Conversion of a 32-bit pattern to `int`: patterns from `2^31` on are the
negative values. -/
def toInt32 (p : Nat) : Int :=
  if p % 4294967296 < 2147483648 then Int.ofNat (p % 4294967296)
  else Int.ofNat (p % 4294967296) - 4294967296

/-- The expression `1 << k` of the program, evaluated in `int`. -/
def shl1 (k : Nat) : Int := toInt32 (1 <<< k)

/-- The operator `~` on an `int`. -/
def notInt (a : Int) : Int := toInt32 (4294967295 - toU32 a)

/-- The operator `|` on two `int`s. -/
def orInt (a b : Int) : Int := toInt32 (toU32 a ||| toU32 b)

/-- The operator `&` on two `int`s. -/
def andInt (a b : Int) : Int := toInt32 (toU32 a &&& toU32 b)

/-- The operator `^` on two `int`s. -/
def xorInt (a b : Int) : Int := toInt32 (toU32 a ^^^ toU32 b)

/-- The operator `|` with an `unsigned int` on the left and an `int` on the
right: the `int` is converted to `unsigned int` first. -/
def orU32 (a : Nat) (b : Int) : Nat := a ||| toU32 b

/-- The operator `&` with an `unsigned int` on the left and an `int` on the
right. -/
def andU32 (a : Nat) (b : Int) : Nat := a &&& toU32 b

/-- The operator `^` with an `unsigned int` on the left and an `int` on the
right. -/
def xorU32 (a : Nat) (b : Int) : Nat := a ^^^ toU32 b

/-- The operator `>>` on an `unsigned int`: zero-filling. -/
def shrU32 (a : Nat) (k : Nat) : Nat := a >>> k

/-- Arithmetic (sign-filling) right shift of an `int`, on its 32-bit
pattern: the `k` vacated high bits are copies of the sign bit. -/
def sarArith (a : Int) (k : Nat) : Int :=
  toInt32 ((toU32 a >>> k) |||
    (if 2147483648 ≤ toU32 a then 4294967296 - 2 ^ (32 - k) else 0))

/-- Logical (zero-filling) right shift of an `int`, on its 32-bit pattern:
the `k` vacated high bits are zero. -/
def sarLogical (a : Int) (k : Nat) : Int := toInt32 (toU32 a >>> k)

/-! ## Implementation-defined behaviour -/

/-- The choices the language leaves to the implementation. -/
structure Impl where
  /-- Result of `a >> k` for a negative `int` `a`. -/
  negShr : Int → Nat → Int
  /-- Whether plain `char` is a signed type. -/
  charSigned : Bool
  /-- The bytes that follow the 13 bytes of `myString` in memory. -/
  after : List Nat

/-- The operator `>>` on an `int`: defined by the language for a non-negative
left operand, chosen by the implementation for a negative one. -/
def shrInt (impl : Impl) (a : Int) (k : Nat) : Int :=
  if 0 ≤ a then Int.ofNat (a.toNat >>> k) else impl.negShr a k

/-- An implementation with arithmetic shift, signed `char` and a zero byte
right behind the buffer. -/
def implArith : Impl := ⟨sarArith, true, [0]⟩

/-- An implementation with logical shift, unsigned `char` and a zero byte
right behind the buffer. -/
def implLogical : Impl := ⟨sarLogical, false, [0]⟩

/-! ## Characters -/

/-- Integral promotion of a `char` with byte pattern `b` to `int`. -/
def promote (signed : Bool) (b : Nat) : Int :=
  if signed && decide (128 ≤ b % 256) then Int.ofNat (b % 256) - 256
  else Int.ofNat (b % 256)

/-- The right-hand side `myString[i] ^ m` stored back into a `char`: the
promoted character is combined with the `int` mask and the low eight bits of
the result are kept. -/
def xorChar (signed : Bool) (b : Nat) (m : Int) : Nat :=
  toU32 (xorInt (promote signed b) m) % 256

/-- The loop `for (int i = 0; i < 13; ++i) myString[i] = myString[i] ^ m;`
from index `i` on, with `n` iterations left. -/
def maskFrom (signed : Bool) (m : Int) : Nat → Nat → List Nat → List Nat
  | 0, _, s => s
  | n + 1, i, s => maskFrom signed m n (i + 1) (s.set i (xorChar signed (s.getD i 0) m))

/-- The whole masking loop over the 13 bytes of the buffer. -/
def maskLoop (signed : Bool) (m : Int) (s : List Nat) : List Nat :=
  maskFrom signed m 13 0 s

/-! ## Text output -/

/-- The bytes of a string literal, without the terminating zero. -/
def bytes (s : String) : List Nat := s.toList.map Char.toNat

/-- A string literal as it lies in memory: its bytes and a zero byte. -/
def lit (s : String) : List Nat := bytes s ++ [0]

/-- Decimal digits of a natural number, most significant first. -/
def decDigits : Nat → Nat → List Nat → List Nat
  | 0, _, acc => acc
  | fuel + 1, n, acc =>
    if n < 10 then (48 + n) :: acc
    else decDigits fuel (n / 10) ((48 + n % 10) :: acc)

/-- Unsigned decimal rendering (the conversion `%u`). -/
def fmtNat (n : Nat) : List Nat := decDigits (n + 1) n []

/-- Signed decimal rendering (the conversion `%i`). -/
def fmtInt (x : Int) : List Nat :=
  if x < 0 then 45 :: fmtNat x.natAbs else fmtNat x.natAbs

/-- The library function `printf`, for the directives the program uses:
ordinary bytes are copied, `%i` renders the next argument as a signed decimal
and `%%` writes a percent sign. The format is read from memory up to its
first zero byte. The result is `none` when the behaviour is undefined: a
conversion without an argument, another directive, or no zero byte in the
memory given. The flag tells whether the previous byte was an unfinished
`%`. -/
def printfAux : Bool → List Nat → List Int → Option (List Nat)
  | _, [], _ => none
  | false, c :: rest, args =>
    if c = 0 then some []
    else if c = 37 then printfAux true rest args
    else (printfAux false rest args).map (fun out => c :: out)
  | true, c :: rest, args =>
    if c = 105 then
      match args with
      | [] => none
      | a :: args' => (printfAux false rest args').map (fun out => fmtInt a ++ out)
    else if c = 37 then (printfAux false rest args).map (fun out => 37 :: out)
    else none

/-- The call `printf(format, args...)`. -/
def printf (format : List Nat) (args : List Int) : Option (List Nat) :=
  printfAux false format args

/-! ## The program -/

/-- The variables of `main` and the output written so far, one entry for
each `printf` call (`none` for a call whose behaviour is undefined). -/
structure State where
  foo : Nat
  bar : Int
  myString : List Nat
  out : List (Option (List Nat))
deriving DecidableEq

/-- The statement `printf("Foo: %i\nBar: %i\n\n", foo, bar);`. The
`unsigned int` argument is read by `%i` as an `int`. -/
def printFooBar (s : State) : State :=
  { s with out := s.out ++ [printf (lit "Foo: %i\nBar: %i\n\n") [toInt32 s.foo, s.bar]] }

/-- A `printf` call with a literal format and no argument. -/
def printLit (text : String) (s : State) : State :=
  { s with out := s.out ++ [printf (lit text) []] }

/-- The statement `printf(myString);`: the format is read from the buffer
and from the memory behind it. -/
def printMyString (impl : Impl) (s : State) : State :=
  { s with out := s.out ++ [printf (s.myString ++ impl.after) []] }

/-- The initial bytes of `char myString[13] = "Hello World!";`. -/
def helloWorld : List Nat := lit "Hello World!"

/-- State at the entry of `main`: nothing written, the buffer not yet
declared. -/
def initial : State := ⟨0, 0, [], []⟩

/-- Block 1 (lines 143-146): `foo = 8; bar = 8;` and the first report. -/
def block1 (s : State) : State :=
  printFooBar { s with foo := 8, bar := 8 }

/-- Block 2 (lines 148-151): both variables shifted right by one. -/
def block2 (impl : Impl) (s : State) : State :=
  printFooBar { s with foo := shrU32 s.foo 1, bar := shrInt impl s.bar 1 }

/-- Block 3 (lines 155-158): both variables shifted right by ten. -/
def block3 (impl : Impl) (s : State) : State :=
  printFooBar { s with foo := shrU32 s.foo 10, bar := shrInt impl s.bar 10 }

/-- Block 4 (lines 161-168): `foo = 8; bar = -8;`, then both shifted right
by one. -/
def block4 (impl : Impl) (s : State) : State :=
  let s1 : State := { s with foo := 8, bar := -8 }
  printFooBar { s1 with foo := shrU32 s1.foo 1, bar := shrInt impl s1.bar 1 }

/-- Block 5 (lines 173-181): set bit `k` (the program has `k = 3`) in
`foo = 0` and in `bar = 8`. -/
def block5 (k : Nat) (s : State) : State :=
  let s1 : State := { s with foo := 0 }
  let s2 : State := { s1 with foo := orU32 s1.foo (shl1 k) }
  let s3 : State := { s2 with bar := 8 }
  printFooBar { s3 with bar := orInt s3.bar (shl1 k) }

/-- Block 6 (lines 186-192): clear bit `k` (the program has `k = 3`) in
`foo = x` and in `bar = y` (the program has `x = 9` and `y = 1`). -/
def block6 (k : Nat) (x : Nat) (y : Int) (s : State) : State :=
  let s1 : State := { s with foo := x }
  let s2 : State := { s1 with foo := andU32 s1.foo (notInt (shl1 k)) }
  let s3 : State := { s2 with bar := y }
  printFooBar { s3 with bar := andInt s3.bar (notInt (shl1 k)) }

/-- Block 7 (lines 196-203): `foo = x;` (the program has `x = 9`) and the
test `if (foo & 1<<3)`, in which `<<` binds tighter than `&`. -/
def block7 (x : Nat) (s : State) : State :=
  let s1 : State := { s with foo := x }
  if andU32 s1.foo (shl1 3) ≠ 0 then printLit "True!\n\n" s1
  else printLit "False!\n\n" s1

/-- Block 8 (lines 206-209): `foo = foo ^ (1 << k); bar = foo ^ (1 << k);`
(the program has `k = 3`); the `unsigned int` result is converted to `int`
by the second assignment. -/
def block8 (k : Nat) (s : State) : State :=
  let s1 : State := { s with foo := xorU32 s.foo (shl1 k) }
  printFooBar { s1 with bar := toInt32 (xorU32 s1.foo (shl1 k)) }

/-- Block 9 (lines 213-235): the buffer is written out, masked with `m`
(the program has `m = 0xD1`), written out, masked again and written out. -/
def block9 (impl : Impl) (m : Int) (s : State) : State :=
  let s1 : State := { s with myString := helloWorld }
  let s2 := printLit "\n\n" (printMyString impl s1)
  let s3 : State := { s2 with myString := maskLoop impl.charSigned m s2.myString }
  let s4 := printLit "\n\n" (printMyString impl s3)
  let s5 : State := { s4 with myString := maskLoop impl.charSigned m s4.myString }
  printLit "\n\n" (printMyString impl s5)

/-- Final block (line 239): the closing message. -/
def finalBlock (s : State) : State :=
  printLit "Press enter to exit." s

/-- The statements of `main` in order, with the constants of the program. -/
def run (impl : Impl) : State :=
  finalBlock (block9 impl 209 (block8 3 (block7 9 (block6 3 9 1 (block5 3
    (block4 impl (block3 impl (block2 impl (block1 initial)))))))))

/-- The function `main`: the final state and the value returned (`_getch()`
changes none of the variables). -/
def main (impl : Impl) : State × Int := (run impl, 1)


/-! ## Further operators and views of the run -/

/-- The operator `<<` on an `unsigned int`: the pattern moves up by `k`
places and the bits that leave the 32-bit width are lost. -/
def shlU32 (a : Nat) (k : Nat) : Nat := (a <<< k) % 4294967296

/-- The operator `<<` on an `int`, as in the `1 << 3` of the program: the
32-bit pattern moves up by `k` places and is read back as an `int`. -/
def shlInt (a : Int) (k : Nat) : Int := toInt32 (toU32 a <<< k)

/-- The states of `main` right after each of its Foo/Bar reports, in the
order of the statements (lines 146, 151, 158, 168, 181, 192 and 209). -/
def reportStates (impl : Impl) : List State :=
  let s1 := block1 initial
  let s2 := block2 impl s1
  let s3 := block3 impl s2
  let s4 := block4 impl s3
  let s5 := block5 3 s4
  let s6 := block6 3 9 1 s5
  let s8 := block8 3 (block7 9 s6)
  [s1, s2, s3, s4, s5, s6, s8]

/-- Whether an entry of the output is a Foo/Bar report: it starts with the
five bytes of "Foo: ". -/
def isReport (e : Option (List Nat)) : Bool :=
  match e with
  | some l => decide (l.take 5 = bytes "Foo: ")
  | none => false

/-- Block 9 up to the end of its first masking loop (lines 213-224). -/
def block9Masked (impl : Impl) (m : Int) (s : State) : State :=
  let s1 : State := { s with myString := helloWorld }
  let s2 := printLit "\n\n" (printMyString impl s1)
  { s2 with myString := maskLoop impl.charSigned m s2.myString }

/-- The rest of block 9 (lines 226-235), from the state left by the first
masking loop. -/
def block9Rest (impl : Impl) (m : Int) (s3 : State) : State :=
  let s4 := printLit "\n\n" (printMyString impl s3)
  let s5 : State := { s4 with myString := maskLoop impl.charSigned m s4.myString }
  printLit "\n\n" (printMyString impl s5)

/-- The bytes a zero-terminated read finds in memory: those before the
first zero byte. -/
def cString (mem : List Nat) : List Nat := mem.takeWhile (fun b => b != 0)

/-- The library function `_getch()` on the keys still to come: it takes the
next key; with no key to come the call does not return. -/
def getch (keys : List Nat) : Option (Nat × List Nat) :=
  match keys with
  | [] => none
  | k :: rest => some (k, rest)

/-- The function `main` with the keyboard made explicit: after the last
`printf` the call `_getch();` takes one key and `main` returns 1. The result
holds the final state, the keys left and the value returned. -/
def mainKeys (impl : Impl) (keys : List Nat) : Option (State × List Nat × Int) :=
  (getch keys).map (fun r => (run impl, r.2, 1))

/-! ## Conversions -/

theorem toU32_lt (x : Int) : toU32 x < 4294967296 := by
  unfold toU32; omega

theorem toU32_ofNat (n : Nat) (h : n < 4294967296) : toU32 (Int.ofNat n) = n := by
  unfold toU32; simp only [Int.ofNat_eq_coe]; omega

theorem toU32_toInt32 (p : Nat) (h : p < 4294967296) : toU32 (toInt32 p) = p := by
  unfold toU32 toInt32
  simp only [Int.ofNat_eq_coe]
  split <;> omega

theorem toInt32_toU32 (x : Int) (h1 : -2147483648 ≤ x) (h2 : x < 2147483648) :
    toInt32 (toU32 x) = x := by
  unfold toU32 toInt32
  simp only [Int.ofNat_eq_coe]
  split <;> omega

theorem toU32_promote (signed : Bool) (b : Nat) : toU32 (promote signed b) % 256 = b % 256 := by
  unfold toU32 promote
  simp only [Int.ofNat_eq_coe]
  split <;> omega

/-- Bits below position 8 depend on the value modulo 256 only. -/
theorem testBit_low8 (p q i : Nat) (h : p % 256 = q % 256) (hi : i < 8) :
    p.testBit i = q.testBit i := by
  have hp := Nat.testBit_mod_two_pow p 8 i
  have hq := Nat.testBit_mod_two_pow q 8 i
  simp only [hi, decide_True, Bool.true_and] at hp hq
  rw [← hp, ← hq]
  norm_num
  rw [h]

theorem xor_mod_256 (p q a b : Nat) (hp : p % 256 = a % 256) (hq : q % 256 = b % 256) :
    (p ^^^ q) % 256 = (a ^^^ b) % 256 := by
  apply Nat.eq_of_testBit_eq
  intro i
  have e : (256 : Nat) = 2 ^ 8 := by norm_num
  rw [e, Nat.testBit_mod_two_pow, Nat.testBit_mod_two_pow, Nat.testBit_xor, Nat.testBit_xor]
  by_cases hi : i < 8
  · rw [testBit_low8 p a i hp hi, testBit_low8 q b i hq hi]
  · simp [hi]

/-- The stored character is the exclusive or of the two byte patterns,
whatever the signedness of `char`. -/
theorem xorChar_eq (signed : Bool) (b : Nat) (m : Int) :
    xorChar signed b m = (b ^^^ toU32 m) % 256 := by
  unfold xorChar xorInt
  rw [toU32_toInt32 _ (Nat.xor_lt_two_pow (n := 32) (toU32_lt _) (toU32_lt _))]
  exact xor_mod_256 _ _ _ _ (toU32_promote signed b) rfl


theorem xorChar_xorChar (signed : Bool) (b : Nat) (m : Int) (hb : b < 256) :
    xorChar signed (xorChar signed b m) m = b := by
  rw [xorChar_eq, xorChar_eq, xor_mod_256 _ _ (b ^^^ toU32 m) (toU32 m) (Nat.mod_mod _ _) rfl,
    Nat.xor_assoc, Nat.xor_self, Nat.xor_zero]
  exact Nat.mod_eq_of_lt hb

/-- The loop started at the end of `pre` rewrites the next `n` bytes and
leaves everything else in place. -/
theorem maskFrom_append (signed : Bool) (m : Int) :
    ∀ (n : Nat) (pre suf : List Nat), n ≤ suf.length →
      maskFrom signed m n pre.length (pre ++ suf)
        = pre ++ (suf.take n).map (fun b => xorChar signed b m) ++ suf.drop n := by
  intro n
  induction n with
  | zero => intro pre suf _; simp [maskFrom]
  | succ n ih =>
    intro pre suf h
    cases suf with
    | nil => simp at h
    | cons a t =>
      have hlen : (pre ++ [xorChar signed a m]).length = pre.length + 1 := by simp
      have hset : (pre ++ a :: t).set pre.length (xorChar signed ((pre ++ a :: t).getD pre.length 0) m)
          = (pre ++ [xorChar signed a m]) ++ t := by
        have hget : (pre ++ a :: t).getD pre.length 0 = a := by
          rw [List.getD_eq_getElem?_getD, List.getElem?_append_right (le_refl _)]
          simp
        rw [hget]
        simp
      have h' : n ≤ t.length := by simpa using h
      rw [maskFrom, hset, ← hlen, ih _ _ h']
      simp

/-- On a buffer of 13 bytes the masking loop rewrites every byte. -/
theorem maskLoop_eq_map (signed : Bool) (m : Int) (s : List Nat) (h : s.length = 13) :
    maskLoop signed m s = s.map (fun b => xorChar signed b m) := by
  have := maskFrom_append signed m 13 [] s (by omega)
  simp only [List.length_nil, List.nil_append] at this
  rw [maskLoop, this, List.take_of_length_le (by omega), List.drop_of_length_le (by omega)]
  simp

/-- Two passes of the masking loop over a buffer of 13 bytes restore it. -/
theorem maskLoop_maskLoop (signed : Bool) (m : Int) (s : List Nat) (h : s.length = 13)
    (hb : ∀ b ∈ s, b < 256) :
    maskLoop signed m (maskLoop signed m s) = s := by
  rw [maskLoop_eq_map signed m s h, maskLoop_eq_map signed m _ (by simpa using h), List.map_map]
  conv_rhs => rw [← List.map_id s]
  apply List.map_congr_left
  intro b hbs
  exact xorChar_xorChar signed b m (hb b hbs)


theorem helloWorld_length : helloWorld.length = 13 := by decide

theorem helloWorld_bytes : ∀ b ∈ helloWorld, b < 256 := by decide

/-- A buffer that holds the text again is written out as the text, whatever
lies behind it. -/
theorem printf_helloWorld (l : List Nat) :
    printf (helloWorld ++ l) [] = some (bytes "Hello World!") := by
  rfl

/-- The effect of block 9 for an arbitrary mask byte. -/
theorem block9_spec (impl : Impl) (m : Int) (s : State) :
    block9 impl m s =
      { foo := s.foo, bar := s.bar, myString := helloWorld,
        out := s.out ++ [some (bytes "Hello World!"), some (bytes "\n\n"),
          printf (maskLoop impl.charSigned m helloWorld ++ impl.after) [],
          some (bytes "\n\n"), some (bytes "Hello World!"), some (bytes "\n\n")] } := by
  have h2 := maskLoop_maskLoop impl.charSigned m helloWorld helloWorld_length helloWorld_bytes
  simp only [block9, printLit, printMyString, h2, printf_helloWorld, List.append_assoc,
    List.singleton_append, List.cons_append, List.nil_append]
  rfl

/-! ## The blocks on the values of the program -/

/-- The report of the two variables, for arbitrary values. -/
theorem printFooBar_spec (s : State) :
    printFooBar s = { s with out := s.out ++
      [some (bytes "Foo: " ++ fmtInt (toInt32 s.foo) ++ bytes "\nBar: " ++ fmtInt s.bar
        ++ bytes "\n\n")] } := by
  simp only [List.append_assoc]
  rfl

theorem block1_spec (s : State) :
    block1 s = ⟨8, 8, s.myString, s.out ++ [some (bytes "Foo: 8\nBar: 8\n\n")]⟩ := by
  rfl

theorem block2_spec (impl : Impl) (ms : List Nat) (o : List (Option (List Nat))) :
    block2 impl ⟨8, 8, ms, o⟩ = ⟨4, 4, ms, o ++ [some (bytes "Foo: 4\nBar: 4\n\n")]⟩ := by
  simp only [block2, printFooBar]
  rfl

theorem block3_spec (impl : Impl) (ms : List Nat) (o : List (Option (List Nat))) :
    block3 impl ⟨4, 4, ms, o⟩ = ⟨0, 0, ms, o ++ [some (bytes "Foo: 0\nBar: 0\n\n")]⟩ := by
  simp only [block3, printFooBar]
  rfl

theorem block4_spec (impl : Impl) (s : State) :
    block4 impl s = ⟨4, impl.negShr (-8) 1, s.myString,
      s.out ++ [some (bytes "Foo: 4\nBar: " ++ fmtInt (impl.negShr (-8) 1) ++ bytes "\n\n")]⟩ := by
  simp only [block4, printFooBar]
  rfl

theorem block5_spec (s : State) :
    block5 3 s = ⟨8, 8, s.myString, s.out ++ [some (bytes "Foo: 8\nBar: 8\n\n")]⟩ := by
  simp only [block5, printFooBar]
  rfl

theorem block6_spec (s : State) :
    block6 3 9 1 s = ⟨1, 1, s.myString, s.out ++ [some (bytes "Foo: 1\nBar: 1\n\n")]⟩ := by
  simp only [block6, printFooBar]
  rfl

theorem block7_spec (s : State) :
    block7 9 s = ⟨9, s.bar, s.myString, s.out ++ [some (bytes "True!\n\n")]⟩ := by
  have h : andU32 9 (shl1 3) ≠ 0 := by decide
  simp only [block7, if_pos h]
  rfl

theorem block8_spec (b : Int) (ms : List Nat) (o : List (Option (List Nat))) :
    block8 3 ⟨9, b, ms, o⟩ = ⟨1, 9, ms, o ++ [some (bytes "Foo: 1\nBar: 9\n\n")]⟩ := by
  simp only [block8, printFooBar]
  rfl

theorem finalBlock_spec (s : State) :
    finalBlock s = { s with out := s.out ++ [some (bytes "Press enter to exit.")] } := by
  rfl

/-- The final state of the program: the variables and the whole output. -/
theorem run_spec (impl : Impl) :
    run impl =
      { foo := 1, bar := 9, myString := helloWorld,
        out := [some (bytes "Foo: 8\nBar: 8\n\n"), some (bytes "Foo: 4\nBar: 4\n\n"),
          some (bytes "Foo: 0\nBar: 0\n\n"),
          some (bytes "Foo: 4\nBar: " ++ fmtInt (impl.negShr (-8) 1) ++ bytes "\n\n"),
          some (bytes "Foo: 8\nBar: 8\n\n"), some (bytes "Foo: 1\nBar: 1\n\n"),
          some (bytes "True!\n\n"), some (bytes "Foo: 1\nBar: 9\n\n"),
          some (bytes "Hello World!"), some (bytes "\n\n"),
          printf (maskLoop impl.charSigned 209 helloWorld ++ impl.after) [],
          some (bytes "\n\n"), some (bytes "Hello World!"), some (bytes "\n\n"),
          some (bytes "Press enter to exit.")] } := by
  rw [run, block1_spec, block2_spec, block3_spec, block4_spec, block5_spec, block6_spec,
    block7_spec, block8_spec, block9_spec, finalBlock_spec]
  rfl

/-- With a mask below 256 the loop replaces every byte of the buffer by its
exclusive or with the mask. -/
theorem maskLoop_byte (signed : Bool) (m : Nat) (hm : m < 256) (s : List Nat)
    (h : s.length = 13) (hb : ∀ b ∈ s, b < 256) :
    maskLoop signed (Int.ofNat m) s = s.map (fun b => b ^^^ m) := by
  rw [maskLoop_eq_map signed _ s h]
  apply List.map_congr_left
  intro b hbs
  have hb8 : b < 2 ^ 8 := by simpa using hb b hbs
  have hm8 : m < 2 ^ 8 := by simpa using hm
  have hx : b ^^^ m < 256 := by simpa using Nat.xor_lt_two_pow hb8 hm8
  show xorChar signed b (Int.ofNat m) = b ^^^ m
  rw [xorChar_eq, toU32_ofNat m (by omega)]
  exact Nat.mod_eq_of_lt hx

/-! ## Single-bit masks -/

/-- The mask `1 << k` as an unsigned value. -/
theorem toU32_shl1 (k : Nat) (hk : k < 32) : toU32 (shl1 k) = 2 ^ k := by
  interval_cases k <;> decide

theorem toU32_notInt (a : Int) : toU32 (notInt a) = 4294967295 - toU32 a := by
  unfold notInt
  exact toU32_toInt32 _ (by omega)

/-- The mask `~(1 << k)` as an unsigned value. -/
theorem toU32_notInt_shl1 (k : Nat) (hk : k < 32) :
    toU32 (notInt (shl1 k)) = 2 ^ 32 - (2 ^ k + 1) := by
  rw [toU32_notInt, toU32_shl1 k hk]
  norm_num
  omega

/-- The bits of `~(1 << k)`: all of the low 32 except bit `k`. -/
theorem testBit_notMask (k i : Nat) (hk : k < 32) :
    (2 ^ 32 - (2 ^ k + 1)).testBit i = (decide (i < 32) && !decide (k = i)) := by
  rw [Nat.testBit_two_pow_sub_succ (Nat.pow_lt_pow_right (by norm_num) hk), Nat.testBit_two_pow]

/-- The test `x & (1 << k)` is non-zero exactly when bit `k` of `x` is set. -/
theorem and_two_pow_ne_zero_iff (x k : Nat) : x &&& 2 ^ k ≠ 0 ↔ x.testBit k = true := by
  constructor
  · intro h
    by_contra hb
    apply h
    apply Nat.eq_of_testBit_eq
    intro i
    rw [Nat.testBit_and, Nat.testBit_two_pow, Nat.zero_testBit]
    by_cases hki : k = i
    · subst hki; simp [hb]
    · simp [hki]
  · intro hb h
    have := congrArg (fun n => n.testBit k) h
    simp [Nat.testBit_and, Nat.testBit_two_pow, hb] at this

theorem testBit_min31 (n j : Nat) (h : n < 2147483648) :
    n.testBit j = n.testBit (min j 31) := by
  by_cases hj : j ≤ 31
  · rw [Nat.min_eq_left hj]
  · have h31 : n < 2 ^ 31 := by simpa using h
    have hj' : n < 2 ^ j := lt_of_lt_of_le h31 (Nat.pow_le_pow_right (by norm_num) (by omega))
    rw [Nat.min_eq_right (by omega), Nat.testBit_lt_two_pow hj', Nat.testBit_lt_two_pow h31]

/-- Bit `j` of an `int` value, in the sense of two's complement with sign
extension, is bit `min j 31` of its 32-bit pattern. -/
theorem int_testBit_eq (y : Int) (h1 : -2147483648 ≤ y) (h2 : y < 2147483648) (j : Nat) :
    Int.testBit y j = (toU32 y).testBit (min j 31) := by
  cases y with
  | ofNat n =>
    simp only [Int.ofNat_eq_coe] at h1 h2 ⊢
    have hn : n < 2147483648 := by omega
    have hp : toU32 (n : Int) = n := toU32_ofNat n (by omega)
    rw [hp]
    show n.testBit j = _
    exact testBit_min31 n j hn
  | negSucc n =>
    have hn : n < 2147483648 := by
      have := Int.negSucc_eq n
      omega
    have hp : toU32 (Int.negSucc n) = 2 ^ 32 - (n + 1) := by
      unfold toU32
      have := Int.negSucc_eq n
      have e : (2 : Nat) ^ 32 = 4294967296 := by norm_num
      rw [e]
      omega
    have hn32 : n < 2 ^ 32 := by norm_num; omega
    rw [hp, Nat.testBit_two_pow_sub_succ hn32]
    show (!n.testBit j) = _
    rw [testBit_min31 n j hn]
    have : min j 31 < 32 := by omega
    simp [this]

theorem toInt32_range (p : Nat) : -2147483648 ≤ toInt32 p ∧ toInt32 p < 2147483648 := by
  unfold toInt32
  simp only [Int.ofNat_eq_coe]
  split <;> omega

/-- The 32-bit pattern of `a & b` on two `int`s. -/
theorem toU32_andInt (a b : Int) : toU32 (andInt a b) = toU32 a &&& toU32 b := by
  unfold andInt
  have hb : toU32 b < 2 ^ 32 := by norm_num; exact toU32_lt b
  have h := Nat.and_lt_two_pow (toU32 a) hb
  norm_num at h
  exact toU32_toInt32 _ h

/-! ## The claims -/

/-- C1: for every mask byte `m` below 256, starting from the 13 bytes of
"Hello World!" and its zero terminator, one pass of the masking loop replaces
every byte by its exclusive or with `m`, and a second pass gives back the
initial 13 bytes, terminator included; block 9 therefore ends with the
initial buffer, and in the program (mask `0xD1`) the first and the third
emission of the buffer are both "Hello World!". -/
theorem xor_mask_round_trip (impl : Impl) (m : Nat) (hm : m < 256) :
    helloWorld = [72, 101, 108, 108, 111, 32, 87, 111, 114, 108, 100, 33, 0]
    ∧ maskLoop impl.charSigned (Int.ofNat m) helloWorld = helloWorld.map (fun b => b ^^^ m)
    ∧ maskLoop impl.charSigned (Int.ofNat m)
        (maskLoop impl.charSigned (Int.ofNat m) helloWorld) = helloWorld
    ∧ (∀ s : State, (block9 impl (Int.ofNat m) s).myString = helloWorld)
    ∧ (run impl).myString = helloWorld
    ∧ (run impl).out[8]? = some (some (bytes "Hello World!"))
    ∧ (run impl).out[12]? = some (some (bytes "Hello World!")) := by
  refine ⟨by decide, ?_, ?_, ?_, ?_, ?_, ?_⟩
  · exact maskLoop_byte _ m hm _ helloWorld_length helloWorld_bytes
  · exact maskLoop_maskLoop _ _ _ helloWorld_length helloWorld_bytes
  · intro s
    rw [block9_spec]
  · rw [run_spec]
  · rw [run_spec]
    rfl
  · rw [run_spec]
    rfl

/-- C1 at the mask of the program, `0xD1`, with signed characters. -/
theorem xor_mask_round_trip_witness :
    209 < 256
    ∧ (helloWorld = [72, 101, 108, 108, 111, 32, 87, 111, 114, 108, 100, 33, 0]
    ∧ maskLoop implArith.charSigned (Int.ofNat 209) helloWorld
        = helloWorld.map (fun b => b ^^^ 209)
    ∧ maskLoop implArith.charSigned (Int.ofNat 209)
        (maskLoop implArith.charSigned (Int.ofNat 209) helloWorld) = helloWorld
    ∧ (∀ s : State, (block9 implArith (Int.ofNat 209) s).myString = helloWorld)
    ∧ (run implArith).myString = helloWorld
    ∧ (run implArith).out[8]? = some (some (bytes "Hello World!"))
    ∧ (run implArith).out[12]? = some (some (bytes "Hello World!"))) :=
  ⟨by decide, xor_mask_round_trip implArith 209 (by decide)⟩

/-- C2: the output of the program, one entry for each `printf` call in the
order of the calls: the Foo/Bar reports (8, 8), (4, 4), (0, 0), (4, the
value the implementation gives to `-8 >> 1`), (8, 8), (1, 1), the line
"True!", the report (1, 9), "Hello World!", the masked buffer,
"Hello World!" again and "Press enter to exit."; every entry other than the
Bar value of the fourth report and the masked buffer is a fixed text. -/
theorem main_transcript (impl : Impl) :
    (main impl).1.out =
      [some (bytes "Foo: 8\nBar: 8\n\n"), some (bytes "Foo: 4\nBar: 4\n\n"),
        some (bytes "Foo: 0\nBar: 0\n\n"),
        some (bytes "Foo: 4\nBar: " ++ fmtInt (impl.negShr (-8) 1) ++ bytes "\n\n"),
        some (bytes "Foo: 8\nBar: 8\n\n"), some (bytes "Foo: 1\nBar: 1\n\n"),
        some (bytes "True!\n\n"), some (bytes "Foo: 1\nBar: 9\n\n"),
        some (bytes "Hello World!"), some (bytes "\n\n"),
        printf (maskLoop impl.charSigned 209 helloWorld ++ impl.after) [],
        some (bytes "\n\n"), some (bytes "Hello World!"), some (bytes "\n\n"),
        some (bytes "Press enter to exit.")] := by
  show (run impl).out = _
  rw [run_spec]

/-- C3: in block 4 (`foo = 8`, `bar = -8`, each shifted right by one) `foo`
is 4 afterwards for every implementation; `bar` is -4 when the shift of the
negative value is the arithmetic one and 2147483644, that is `2^31 - 4`, when
it is the logical one, and the report shows these values. -/
theorem block4_shift (impl : Impl) (s : State) :
    (block4 impl s).foo = 4
    ∧ (block4 { impl with negShr := sarArith } s).bar = -4
    ∧ (block4 { impl with negShr := sarLogical } s).bar = 2147483644
    ∧ (2147483644 : Int) = 2 ^ 31 - 4
    ∧ (block4 { impl with negShr := sarArith } s).out
        = s.out ++ [some (bytes "Foo: 4\nBar: -4\n\n")]
    ∧ (block4 { impl with negShr := sarLogical } s).out
        = s.out ++ [some (bytes "Foo: 4\nBar: 2147483644\n\n")] := by
  refine ⟨?_, ?_, ?_, by norm_num, ?_, ?_⟩
  · rw [block4_spec]
  · rw [block4_spec]
    show sarArith (-8) 1 = -4
    decide
  · rw [block4_spec]
    show sarLogical (-8) 1 = 2147483644
    decide
  · rw [block4_spec]
    show s.out ++ [some (bytes "Foo: 4\nBar: " ++ fmtInt (sarArith (-8) 1) ++ bytes "\n\n")] = _
    have h : sarArith (-8) 1 = -4 := by decide
    rw [h]
    rfl
  · rw [block4_spec]
    show s.out ++ [some (bytes "Foo: 4\nBar: " ++ fmtInt (sarLogical (-8) 1) ++ bytes "\n\n")] = _
    have h : sarLogical (-8) 1 = 2147483644 := by decide
    rw [h]
    rfl

/-- C4: two runs that differ only in the result chosen for the right shift
of a negative `int` (any function at all in place of the other) end with the
same `foo`, `bar` and `myString`, and their outputs agree in every entry
other than the fourth report; the fourth reports have the same Foo line and
differ at most in the Bar value. Block 5 overwrites `foo` and `bar` before
reading them, so the value left in `bar` by block 4 is not used. -/
theorem deterministic_apart_from_block4 (impl : Impl) (f : Int → Nat → Int) :
    (run { impl with negShr := f }).foo = (run impl).foo
    ∧ (run { impl with negShr := f }).bar = (run impl).bar
    ∧ (run { impl with negShr := f }).myString = (run impl).myString
    ∧ (run { impl with negShr := f }).out.eraseIdx 3 = (run impl).out.eraseIdx 3
    ∧ (run impl).out[3]?
        = some (some (bytes "Foo: 4\nBar: " ++ fmtInt (impl.negShr (-8) 1) ++ bytes "\n\n"))
    ∧ (run { impl with negShr := f }).out[3]?
        = some (some (bytes "Foo: 4\nBar: " ++ fmtInt (f (-8) 1) ++ bytes "\n\n"))
    ∧ (∀ (s : State) (x : Nat) (b : Int),
        block5 3 { s with foo := x, bar := b } = block5 3 s) := by
  refine ⟨?_, ?_, ?_, ?_, ?_, ?_, ?_⟩
  · rw [run_spec, run_spec]
  · rw [run_spec, run_spec]
  · rw [run_spec, run_spec]
  · rw [run_spec, run_spec]
    rfl
  · rw [run_spec]
    rfl
  · rw [run_spec]
    rfl
  · intro s x b
    rw [block5_spec, block5_spec]

/-- C5: for every unsigned 32-bit value `x` placed in `foo`, block 7 writes
"True!" and a blank line exactly when bit 3 of `x` is set, and "False!" and
a blank line exactly when it is not; 9 gives "True!" and 1 gives "False!". -/
theorem block7_bit_test (x : Nat) (hx : x < 4294967296) (s : State) :
    (block7 x s).foo < 4294967296
    ∧ ((block7 x s).out = s.out ++ [some (bytes "True!\n\n")] ↔ x.testBit 3 = true)
    ∧ ((block7 x s).out = s.out ++ [some (bytes "False!\n\n")] ↔ x.testBit 3 = false)
    ∧ (block7 9 s).out = s.out ++ [some (bytes "True!\n\n")]
    ∧ (block7 1 s).out = s.out ++ [some (bytes "False!\n\n")] := by
  have key : ∀ y : Nat, (andU32 y (shl1 3) ≠ 0) ↔ y.testBit 3 = true := by
    intro y
    rw [andU32, toU32_shl1 3 (by norm_num)]
    exact and_two_pow_ne_zero_iff y 3
  have hT : ∀ y : Nat, y.testBit 3 = true →
      (block7 y s).foo = y ∧ (block7 y s).out = s.out ++ [some (bytes "True!\n\n")] := by
    intro y hy
    have hc := (key y).mpr hy
    simp only [block7, if_pos hc]
    exact ⟨rfl, rfl⟩
  have hF : ∀ y : Nat, y.testBit 3 = false →
      (block7 y s).foo = y ∧ (block7 y s).out = s.out ++ [some (bytes "False!\n\n")] := by
    intro y hy
    have hc : ¬ (andU32 y (shl1 3) ≠ 0) := by
      rw [key y, hy]
      simp
    simp only [block7, if_neg hc]
    exact ⟨rfl, rfl⟩
  have hne : s.out ++ [some (bytes "True!\n\n")] ≠ s.out ++ [some (bytes "False!\n\n")] := by
    intro h
    have h1 := List.append_cancel_left h
    revert h1
    decide
  cases hb : x.testBit 3 with
  | true =>
    have h := hT x hb
    refine ⟨by rw [h.1]; exact hx, ?_, ?_, (hT 9 (by decide)).2, (hF 1 (by decide)).2⟩
    · simp [h.2]
    · rw [h.2]
      simp only [iff_false, Bool.true_eq_false]
      exact hne
  | false =>
    have h := hF x hb
    refine ⟨by rw [h.1]; exact hx, ?_, ?_, (hT 9 (by decide)).2, (hF 1 (by decide)).2⟩
    · rw [h.2]
      simp only [iff_false, Bool.false_eq_true]
      exact fun e => hne e.symm
    · simp [h.2]

/-- C5 at the value of the program, 9. -/
theorem block7_bit_test_witness :
    9 < 4294967296
    ∧ ((block7 9 initial).foo < 4294967296
    ∧ ((block7 9 initial).out = initial.out ++ [some (bytes "True!\n\n")]
        ↔ Nat.testBit 9 3 = true)
    ∧ ((block7 9 initial).out = initial.out ++ [some (bytes "False!\n\n")]
        ↔ Nat.testBit 9 3 = false)
    ∧ (block7 9 initial).out = initial.out ++ [some (bytes "True!\n\n")]
    ∧ (block7 1 initial).out = initial.out ++ [some (bytes "False!\n\n")]) :=
  ⟨by decide, block7_bit_test 9 (by decide) initial⟩

/-- C6, as stated, fails at bit index 31: after the two toggles `foo` holds
`9 XOR 2^31 = 2147483657`, which `%i` prints as `-2147483639`, not as the
decimal form of `9 XOR 2^31`. -/
theorem block8_print_counterexample :
    (31 : Nat) < 32
    ∧ (block8 31 ⟨9, 1, [], []⟩).foo = 9 ^^^ 2 ^ 31
    ∧ fmtInt (Int.ofNat (9 ^^^ 2 ^ 31)) = bytes "2147483657"
    ∧ (block8 31 ⟨9, 1, [], []⟩).out = [some (bytes "Foo: -2147483639\nBar: 9\n\n")]
    ∧ (block8 31 ⟨9, 1, [], []⟩).out
        ≠ [some (bytes "Foo: " ++ fmtInt (Int.ofNat (9 ^^^ 2 ^ 31)) ++ bytes "\nBar: "
            ++ fmtInt 9 ++ bytes "\n\n")] := by
  decide

/-- C6, amended: for every bit index `k` below 32, block 8 started with
`foo = 9` leaves `9 XOR 2^k` in `foo` and 9 in `bar`; the report shows
`9 XOR 2^k` and 9 when `k < 31`, and for `k = 31` it shows `foo` as the
negative number `(9 XOR 2^31) - 2^32`; for `k = 3` the report is 1 and 9. -/
theorem block8_toggle_print (k : Nat) (hk : k < 32) (b : Int) (ms : List Nat)
    (o : List (Option (List Nat))) :
    (block8 k ⟨9, b, ms, o⟩).foo = 9 ^^^ 2 ^ k
    ∧ (block8 k ⟨9, b, ms, o⟩).bar = 9
    ∧ (block8 k ⟨9, b, ms, o⟩).out = o ++
        [some (bytes "Foo: "
          ++ fmtInt (if k < 31 then Int.ofNat (9 ^^^ 2 ^ k)
              else Int.ofNat (9 ^^^ 2 ^ k) - 4294967296)
          ++ bytes "\nBar: " ++ fmtInt 9 ++ bytes "\n\n")]
    ∧ (block8 3 ⟨9, b, ms, o⟩).out = o ++ [some (bytes "Foo: 1\nBar: 9\n\n")] := by
  have h1 : toInt32 (xorU32 9 (shl1 k))
      = if k < 31 then Int.ofNat (9 ^^^ 2 ^ k) else Int.ofNat (9 ^^^ 2 ^ k) - 4294967296 := by
    interval_cases k <;> decide
  have h2 : toInt32 (xorU32 (xorU32 9 (shl1 k)) (shl1 k)) = 9 := by
    interval_cases k <;> decide
  refine ⟨?_, ?_, ?_, ?_⟩
  · simp only [block8, printFooBar_spec, xorU32, toU32_shl1 k hk]
  · simp only [block8, printFooBar_spec]
    exact h2
  · simp only [block8, printFooBar_spec, h1, h2]
  · rw [block8_spec]

/-- C6 (amended) at the bit index of the program, 3. -/
theorem block8_toggle_print_witness :
    3 < 32
    ∧ ((block8 3 ⟨9, 1, [], []⟩).foo = 9 ^^^ 2 ^ 3
    ∧ (block8 3 ⟨9, 1, [], []⟩).bar = 9
    ∧ (block8 3 ⟨9, 1, [], []⟩).out = [] ++
        [some (bytes "Foo: "
          ++ fmtInt (if 3 < 31 then Int.ofNat (9 ^^^ 2 ^ 3)
              else Int.ofNat (9 ^^^ 2 ^ 3) - 4294967296)
          ++ bytes "\nBar: " ++ fmtInt 9 ++ bytes "\n\n")]
    ∧ (block8 3 ⟨9, 1, [], []⟩).out = [] ++ [some (bytes "Foo: 1\nBar: 9\n\n")]) :=
  ⟨by decide, block8_toggle_print 3 (by decide) 1 [] []⟩

/-- C7: for every unsigned 32-bit `x` and every bit index `k` below 32,
`(x | (1<<k)) & (1<<k)` is non-zero and `(x & ~(1<<k)) & (1<<k)` is zero,
with `1<<k` and `~(1<<k)` computed in `int` and converted to `unsigned int`
as in blocks 5, 6 and 7; in the program `0 | (1<<3)` is 8 and
`9 & ~(1<<3)` is 1. -/
theorem set_then_test_clear_then_test (x k : Nat) (hx : x < 4294967296) (hk : k < 32)
    (s : State) :
    andU32 (orU32 x (shl1 k)) (shl1 k) ≠ 0
    ∧ andU32 (andU32 x (notInt (shl1 k))) (shl1 k) = 0
    ∧ orU32 x (shl1 k) < 4294967296
    ∧ andU32 x (notInt (shl1 k)) < 4294967296
    ∧ andU32 (block5 k s).foo (shl1 k) ≠ 0
    ∧ andU32 (block6 k x 1 s).foo (shl1 k) = 0
    ∧ orU32 0 (shl1 3) = 8
    ∧ andU32 9 (notInt (shl1 3)) = 1
    ∧ (block5 3 s).foo = 8
    ∧ (block6 3 9 1 s).foo = 1 := by
  have hset : ∀ z : Nat, andU32 (orU32 z (shl1 k)) (shl1 k) ≠ 0 := by
    intro z
    simp only [andU32, orU32, toU32_shl1 k hk]
    rw [and_two_pow_ne_zero_iff, Nat.testBit_or, Nat.testBit_two_pow_self, Bool.or_true]
  have hclear : andU32 (andU32 x (notInt (shl1 k))) (shl1 k) = 0 := by
    simp only [andU32, toU32_shl1 k hk, toU32_notInt_shl1 k hk]
    by_contra hne
    have hb := (and_two_pow_ne_zero_iff _ k).mp hne
    rw [Nat.testBit_and, testBit_notMask k k hk] at hb
    simp at hb
  have hx32 : x < 2 ^ 32 := by simpa using hx
  have hm32 : toU32 (shl1 k) < 2 ^ 32 := by simpa using toU32_lt (shl1 k)
  refine ⟨hset x, hclear, ?_, ?_, ?_, ?_, by decide, by decide, ?_, ?_⟩
  · simpa [orU32] using Nat.or_lt_two_pow hx32 hm32
  · have := Nat.and_lt_two_pow x (y := toU32 (notInt (shl1 k))) (n := 32)
      (by simpa using toU32_lt (notInt (shl1 k)))
    simpa [andU32] using this
  · simp only [block5, printFooBar_spec]
    exact hset 0
  · simp only [block6, printFooBar_spec]
    exact hclear
  · rw [block5_spec]
  · rw [block6_spec]

/-- C7 at the values of block 6 of the program: `x = 9`, `k = 3`. -/
theorem set_then_test_clear_then_test_witness :
    9 < 4294967296 ∧ 3 < 32
    ∧ (andU32 (orU32 9 (shl1 3)) (shl1 3) ≠ 0
    ∧ andU32 (andU32 9 (notInt (shl1 3))) (shl1 3) = 0
    ∧ orU32 9 (shl1 3) < 4294967296
    ∧ andU32 9 (notInt (shl1 3)) < 4294967296
    ∧ andU32 (block5 3 initial).foo (shl1 3) ≠ 0
    ∧ andU32 (block6 3 9 1 initial).foo (shl1 3) = 0
    ∧ orU32 0 (shl1 3) = 8
    ∧ andU32 9 (notInt (shl1 3)) = 1
    ∧ (block5 3 initial).foo = 8
    ∧ (block6 3 9 1 initial).foo = 1) :=
  ⟨by decide, by decide, set_then_test_clear_then_test 9 3 (by decide) (by decide) initial⟩

/-- C8: clearing bit 3 as in block 6 leaves the other bits alone. For every
unsigned 32-bit `x` in `foo` and every `int` value `y` in `bar`, the result
of `& ~(1<<3)` has bit 3 equal to 0 and every other bit (in particular each
bit `j` in 0..31 with `j ≠ 3`) equal to the same bit of the operand; for
`bar` the bits are those of the two's-complement value. In the program 9
becomes 1 and 1 stays 1. -/
theorem clear_bit3_frame (x : Nat) (hx : x < 4294967296) (y : Int)
    (hy1 : -2147483648 ≤ y) (hy2 : y < 2147483648) (s : State) :
    (block6 3 x y s).foo.testBit 3 = false
    ∧ (∀ j : Nat, j ≠ 3 → (block6 3 x y s).foo.testBit j = x.testBit j)
    ∧ Int.testBit (block6 3 x y s).bar 3 = false
    ∧ (∀ j : Nat, j ≠ 3 → Int.testBit (block6 3 x y s).bar j = Int.testBit y j)
    ∧ (block6 3 9 1 s).foo = 1
    ∧ (block6 3 9 1 s).bar = 1 := by
  have hfoo : (block6 3 x y s).foo = x &&& (2 ^ 32 - (2 ^ 3 + 1)) := by
    simp only [block6, printFooBar_spec, andU32, toU32_notInt_shl1 3 (by norm_num)]
  have hbar : (block6 3 x y s).bar = andInt y (notInt (shl1 3)) := by
    simp only [block6, printFooBar_spec]
  have hr : -2147483648 ≤ andInt y (notInt (shl1 3))
      ∧ andInt y (notInt (shl1 3)) < 2147483648 := toInt32_range _
  have hbit : ∀ j : Nat, Int.testBit (block6 3 x y s).bar j
      = ((toU32 y).testBit (min j 31) && !decide (3 = min j 31)) := by
    intro j
    have hlt : min j 31 < 32 := by omega
    rw [hbar, int_testBit_eq _ hr.1 hr.2 j, toU32_andInt, Nat.testBit_and,
      toU32_notInt_shl1 3 (by norm_num), testBit_notMask 3 _ (by norm_num)]
    simp [hlt]
  refine ⟨?_, ?_, ?_, ?_, ?_, ?_⟩
  · rw [hfoo, Nat.testBit_and, testBit_notMask 3 3 (by norm_num)]
    simp
  · intro j hj
    rw [hfoo, Nat.testBit_and, testBit_notMask 3 j (by norm_num)]
    by_cases hj32 : j < 32
    · have : ¬ (3 = j) := fun e => hj e.symm
      simp [hj32, this]
    · have h32 : x < 2 ^ 32 := by norm_num; exact hx
      have hle : 32 ≤ j := Nat.le_of_not_lt hj32
      have hxj : x < 2 ^ j := lt_of_lt_of_le h32 (Nat.pow_le_pow_right (by norm_num) hle)
      simp [hj32, Nat.testBit_lt_two_pow hxj]
  · rw [hbit 3]
    simp
  · intro j hj
    have : ¬ (3 = min j 31) := by omega
    rw [hbit j, int_testBit_eq y hy1 hy2 j]
    simp [this]
  · rw [block6_spec]
  · rw [block6_spec]

/-- C8 at the values of the program: 9 in `foo`, 1 in `bar`; bit 0 is kept
and bit 3 is cleared. -/
theorem clear_bit3_frame_witness :
    9 < 4294967296 ∧ (-2147483648 : Int) ≤ 1 ∧ (1 : Int) < 2147483648
    ∧ (block6 3 9 1 initial).foo.testBit 3 = false
    ∧ (block6 3 9 1 initial).foo.testBit 0 = Nat.testBit 9 0
    ∧ Int.testBit (block6 3 9 1 initial).bar 0 = Int.testBit 1 0
    ∧ (block6 3 9 1 initial).foo = 1
    ∧ (block6 3 9 1 initial).bar = 1 :=
  have h := clear_bit3_frame 9 (by decide) 1 (by decide) (by decide) initial
  ⟨by decide, by decide, by decide, h.1, h.2.1 0 (by decide), h.2.2.2.1 0 (by decide),
    h.2.2.2.2.1, h.2.2.2.2.2⟩

/-- C9: toggling a bit twice gives the value back. For every unsigned 32-bit
`x` and every bit index `k` below 32, `(x ^ (1<<k)) ^ (1<<k)` is `x`; in
block 8 the first toggle leaves `x XOR 2^k` in `foo` and the second one puts
into `bar` the value `foo` had before the first (9 in the program). -/
theorem toggle_involution (x k : Nat) (hx : x < 4294967296) (hk : k < 32) (b : Int)
    (ms : List Nat) (o : List (Option (List Nat))) :
    xorU32 (xorU32 x (shl1 k)) (shl1 k) = x
    ∧ (block8 k ⟨x, b, ms, o⟩).foo = x ^^^ 2 ^ k
    ∧ toU32 (block8 k ⟨x, b, ms, o⟩).bar = x
    ∧ (block8 3 ⟨9, b, ms, o⟩).bar = 9 := by
  have h : xorU32 (xorU32 x (shl1 k)) (shl1 k) = x := by
    simp only [xorU32]
    rw [Nat.xor_assoc, Nat.xor_self, Nat.xor_zero]
  refine ⟨h, ?_, ?_, ?_⟩
  · simp only [block8, printFooBar_spec, xorU32, toU32_shl1 k hk]
  · simp only [block8, printFooBar_spec, h]
    exact toU32_toInt32 x hx
  · rw [block8_spec]

/-- C9 at the values of the program: `x = 9`, `k = 3`. -/
theorem toggle_involution_witness :
    9 < 4294967296 ∧ 3 < 32
    ∧ (xorU32 (xorU32 9 (shl1 3)) (shl1 3) = 9
    ∧ (block8 3 ⟨9, 1, [], []⟩).foo = 9 ^^^ 2 ^ 3
    ∧ toU32 (block8 3 ⟨9, 1, [], []⟩).bar = 9
    ∧ (block8 3 ⟨9, 1, [], []⟩).bar = 9) :=
  ⟨by decide, by decide, toggle_involution 9 3 (by decide) (by decide) 1 [] []⟩

/-- C10: clearing a bit twice is the same as clearing it once. For every
`x` (unsigned) or `y` (signed), 32-bit ones included, and every bit index
`k` below 32,
`(x & ~(1<<k)) & ~(1<<k)` equals `x & ~(1<<k)`, where `~(1<<k)` has every
bit of the low 32 set except bit `k`; block 6 run again on the values it
left in `foo` and `bar` leaves the same values. -/
theorem clear_idempotent (x k : Nat) (hk : k < 32) (y : Int) (s s' : State) :
    toU32 (notInt (shl1 k)) = 4294967295 - 2 ^ k
    ∧ andU32 (andU32 x (notInt (shl1 k))) (notInt (shl1 k)) = andU32 x (notInt (shl1 k))
    ∧ andInt (andInt y (notInt (shl1 k))) (notInt (shl1 k)) = andInt y (notInt (shl1 k))
    ∧ (block6 k (block6 k x y s).foo (block6 k x y s).bar s').foo = (block6 k x y s).foo
    ∧ (block6 k (block6 k x y s).foo (block6 k x y s).bar s').bar = (block6 k x y s).bar := by
  have hu : ∀ z : Nat, andU32 (andU32 z (notInt (shl1 k))) (notInt (shl1 k))
      = andU32 z (notInt (shl1 k)) := by
    intro z
    simp only [andU32]
    rw [Nat.and_assoc, Nat.and_self]
  have hi : ∀ z : Int, andInt (andInt z (notInt (shl1 k))) (notInt (shl1 k))
      = andInt z (notInt (shl1 k)) := by
    intro z
    have e := toU32_andInt z (notInt (shl1 k))
    rw [andInt, e, Nat.and_assoc, Nat.and_self]
    rfl
  refine ⟨?_, hu x, hi y, ?_, ?_⟩
  · rw [toU32_notInt, toU32_shl1 k hk]
  · simp only [block6, printFooBar_spec]
    exact hu x
  · simp only [block6, printFooBar_spec]
    exact hi y

/-- C10 at the values of block 6 of the program: `x = 9`, `y = 1`, `k = 3`. -/
theorem clear_idempotent_witness :
    3 < 32
    ∧ (toU32 (notInt (shl1 3)) = 4294967295 - 2 ^ 3
    ∧ andU32 (andU32 9 (notInt (shl1 3))) (notInt (shl1 3)) = andU32 9 (notInt (shl1 3))
    ∧ andInt (andInt 1 (notInt (shl1 3))) (notInt (shl1 3)) = andInt 1 (notInt (shl1 3))
    ∧ (block6 3 (block6 3 9 1 initial).foo (block6 3 9 1 initial).bar initial).foo
        = (block6 3 9 1 initial).foo
    ∧ (block6 3 (block6 3 9 1 initial).foo (block6 3 9 1 initial).bar initial).bar
        = (block6 3 9 1 initial).bar) :=
  ⟨by decide, clear_idempotent 9 3 (by decide) 1 initial initial⟩

/-! ## Shifts -/

theorem toInt32_of_lt (p : Nat) (h : p < 2147483648) : toInt32 p = Int.ofNat p := by
  unfold toInt32
  simp only [Int.ofNat_eq_coe]
  split <;> omega

theorem toInt32_of_ge (p : Nat) (h1 : 2147483648 ≤ p) (h2 : p < 4294967296) :
    toInt32 p = Int.ofNat p - 4294967296 := by
  unfold toInt32
  simp only [Int.ofNat_eq_coe]
  split <;> omega

/-- The shift of a non-negative `int` is the shift of the natural number. -/
theorem shrInt_ofNat (impl : Impl) (n k : Nat) :
    shrInt impl (Int.ofNat n) k = Int.ofNat (n >>> k) := by
  unfold shrInt
  simp only [Int.ofNat_eq_coe]
  rw [if_pos (Int.natCast_nonneg n), Int.toNat_natCast]

/-- A 32-bit value whose bits from position `n` on are clear is below `2^n`. -/
theorem lt_two_pow_of_clear (x n : Nat) (hx : x < 4294967296)
    (h : ∀ j : Nat, j < 32 → n ≤ j → x.testBit j = false) : x < 2 ^ n := by
  apply Nat.lt_pow_two_of_testBit
  intro i hi
  by_cases h32 : i < 32
  · exact h i h32 hi
  · have h1 : x < 2 ^ 32 := by norm_num; exact hx
    exact Nat.testBit_lt_two_pow
      (lt_of_lt_of_le h1 (Nat.pow_le_pow_right (by norm_num) (Nat.le_of_not_lt h32)))

theorem mul_two_pow_lt (x n k : Nat) (hk : k ≤ n) (h : x < 2 ^ (n - k)) :
    x * 2 ^ k < 2 ^ n := by
  have hpos : 0 < 2 ^ k := Nat.pow_pos (by norm_num)
  calc x * 2 ^ k < 2 ^ (n - k) * 2 ^ k := Nat.mul_lt_mul_of_pos_right h hpos
    _ = 2 ^ n := Nat.pow_sub_mul_pow 2 hk

theorem div_two_pow_lt (x k : Nat) (hx : x < 4294967296) (hk : k ≤ 32) :
    x / 2 ^ k < 2 ^ (32 - k) := by
  rw [Nat.div_lt_iff_lt_mul (Nat.pow_pos (by norm_num)), Nat.pow_sub_mul_pow 2 hk]
  norm_num
  exact hx

/-- C11: the right shift of the unsigned variable is division by a power of
two. For every unsigned 32-bit `x` and every shift count `k` below 32,
`x >> k` is the floor of `x / 2^k`; bit `j` of the result is bit `k + j` of
`x`, and the result is below `2^(32-k)`, so the `k` vacated high bits are
zero. In the program `8 >> 1` is 4 and `4 >> 10` is 0. -/
theorem shrU32_is_division (x k : Nat) (hx : x < 4294967296) (hk : k < 32) (impl : Impl)
    (y : Int) (ms : List Nat) (o : List (Option (List Nat))) :
    shrU32 x k = x / 2 ^ k
    ∧ shrU32 x k * 2 ^ k ≤ x
    ∧ x < (shrU32 x k + 1) * 2 ^ k
    ∧ shrU32 x k < 2 ^ (32 - k)
    ∧ (∀ j : Nat, (shrU32 x k).testBit j = x.testBit (k + j))
    ∧ (∀ j : Nat, 32 - k ≤ j → (shrU32 x k).testBit j = false)
    ∧ shrU32 8 1 = 4
    ∧ shrU32 4 10 = 0
    ∧ (block2 impl ⟨x, y, ms, o⟩).foo = x / 2 ^ 1
    ∧ (block3 impl ⟨x, y, ms, o⟩).foo = x / 2 ^ 10 := by
  have hdiv : shrU32 x k = x / 2 ^ k := Nat.shiftRight_eq_div_pow x k
  have hpos : 0 < 2 ^ k := Nat.pow_pos (by norm_num)
  have hlt : shrU32 x k < 2 ^ (32 - k) := by
    rw [hdiv]
    exact div_two_pow_lt x k hx (Nat.le_of_lt hk)
  refine ⟨hdiv, ?_, ?_, hlt, ?_, ?_, by decide, by decide, ?_, ?_⟩
  · rw [hdiv]
    exact Nat.div_mul_le_self x (2 ^ k)
  · rw [hdiv]
    have h1 := Nat.div_add_mod x (2 ^ k)
    have h2 := Nat.mod_lt x hpos
    rw [Nat.add_mul, Nat.one_mul, Nat.mul_comm]
    omega
  · intro j
    exact Nat.testBit_shiftRight x
  · intro j hj
    exact Nat.testBit_lt_two_pow (lt_of_lt_of_le hlt (Nat.pow_le_pow_right (by norm_num) hj))
  · simp only [block2, printFooBar_spec]
    exact Nat.shiftRight_eq_div_pow x 1
  · simp only [block3, printFooBar_spec]
    exact Nat.shiftRight_eq_div_pow x 10

/-- C11 at the values of block 2 of the program: `x = 8`, `k = 1`. -/
theorem shrU32_is_division_witness :
    8 < 4294967296 ∧ 1 < 32
    ∧ shrU32 8 1 = 8 / 2 ^ 1
    ∧ shrU32 8 1 < 2 ^ (32 - 1)
    ∧ shrU32 8 1 = 4
    ∧ shrU32 4 10 = 0
    ∧ (block2 implArith ⟨8, 8, [], []⟩).foo = 8 / 2 ^ 1 :=
  have h := shrU32_is_division 8 1 (by decide) (by decide) implArith 8 [] []
  ⟨by decide, by decide, h.1, h.2.2.2.1, h.2.2.2.2.2.2.1, h.2.2.2.2.2.2.2.1,
    h.2.2.2.2.2.2.2.2.1⟩

/-- C12: shifting past the significant bits gives zero. For every shift count
`k` below 32 and every `x` below `2^k`, `x >> k` is 0 when `x` is an
`unsigned int` and when it is an `int`, for every implementation; the
arithmetic and the logical shift agree on it. In block 3 both variables hold
4 and `4 >> 10` is 0 for both. -/
theorem shift_past_bits_is_zero (impl : Impl) (x k : Nat) (hk : k < 32) (hx : x < 2 ^ k)
    (ms : List Nat) (o : List (Option (List Nat))) :
    shrU32 x k = 0
    ∧ shrInt impl (Int.ofNat x) k = 0
    ∧ sarArith (Int.ofNat x) k = 0
    ∧ sarLogical (Int.ofNat x) k = 0
    ∧ (block3 impl ⟨4, 4, ms, o⟩).foo = 0
    ∧ (block3 impl ⟨4, 4, ms, o⟩).bar = 0 := by
  have h0 : x >>> k = 0 := by
    rw [Nat.shiftRight_eq_div_pow]
    exact Nat.div_eq_of_lt hx
  have h31 : x < 2 ^ 31 :=
    lt_of_lt_of_le hx (Nat.pow_le_pow_right (by norm_num) (by omega))
  have hx31 : x < 2147483648 := by
    norm_num at h31
    exact h31
  have hu : toU32 (Int.ofNat x) = x := toU32_ofNat x (by omega)
  refine ⟨h0, ?_, ?_, ?_, ?_, ?_⟩
  · rw [shrInt_ofNat, h0]
    rfl
  · unfold sarArith
    rw [hu, h0, if_neg (by omega)]
    rfl
  · unfold sarLogical
    rw [hu, h0]
    rfl
  · rw [block3_spec]
  · rw [block3_spec]

/-- C12 at the values of block 3 of the program: `x = 4`, `k = 10`. -/
theorem shift_past_bits_is_zero_witness :
    10 < 32 ∧ 4 < 2 ^ 10
    ∧ (shrU32 4 10 = 0
    ∧ shrInt implArith (Int.ofNat 4) 10 = 0
    ∧ sarArith (Int.ofNat 4) 10 = 0
    ∧ sarLogical (Int.ofNat 4) 10 = 0
    ∧ (block3 implArith ⟨4, 4, [], []⟩).foo = 0
    ∧ (block3 implArith ⟨4, 4, [], []⟩).bar = 0) :=
  ⟨by decide, by decide, shift_past_bits_is_zero implArith 4 10 (by decide) (by decide) [] []⟩

/-- C13, as stated, fails for the signed type where the shift of a negative
`int` is arithmetic: `x = 1` is non-negative and has no bit set in positions
1 to 31, `1 << 31` is the negative value `-2147483648`, and shifting that
right by 31 gives `-1`, not 1. -/
theorem shift_round_trip_counterexample :
    (0 : Int) ≤ Int.ofNat 1 ∧ Int.ofNat 1 < 2147483648 ∧ 31 < 32
    ∧ (∀ j : Nat, j < 32 → 32 - 31 ≤ j → Nat.testBit 1 j = false)
    ∧ shlInt (Int.ofNat 1) 31 = -2147483648
    ∧ shlInt (Int.ofNat 1) 31 = shl1 31
    ∧ shrInt implArith (shlInt (Int.ofNat 1) 31) 31 = -1
    ∧ shrInt implArith (shlInt (Int.ofNat 1) 31) 31 ≠ Int.ofNat 1 := by
  decide

/-- C13, amended: for every 32-bit `x`, every shift count `k` below 32 and
no bit of `x` set in positions `32-k` to 31, `(x << k) >> k` is `x` when `x`
is an `unsigned int`; when `x` is a non-negative `int` it is `x` provided
that bit `31-k` of `x` is clear as well (so that `x << k` is not negative),
or that the implementation shifts negative values logically. -/
theorem shift_round_trip (impl : Impl) (x k : Nat) (hx : x < 4294967296) (hk : k < 32)
    (hbits : ∀ j : Nat, j < 32 → 32 - k ≤ j → x.testBit j = false) :
    shrU32 (shlU32 x k) k = x
    ∧ (x < 2147483648 → x.testBit (31 - k) = false →
        shrInt impl (shlInt (Int.ofNat x) k) k = Int.ofNat x)
    ∧ (x < 2147483648 → impl.negShr = sarLogical →
        shrInt impl (shlInt (Int.ofNat x) k) k = Int.ofNat x) := by
  have hlow : x < 2 ^ (32 - k) := lt_two_pow_of_clear x (32 - k) hx hbits
  have hp32 : x * 2 ^ k < 2 ^ 32 := mul_two_pow_lt x 32 k (Nat.le_of_lt hk) hlow
  have hp : x * 2 ^ k < 4294967296 := by
    norm_num at hp32
    exact hp32
  have hpos : 0 < 2 ^ k := Nat.pow_pos (by norm_num)
  have hback : (x * 2 ^ k) >>> k = x := by
    rw [Nat.shiftRight_eq_div_pow]
    exact Nat.mul_div_cancel x hpos
  have hshl : shlInt (Int.ofNat x) k = toInt32 (x * 2 ^ k) := by
    unfold shlInt
    rw [toU32_ofNat x hx, Nat.shiftLeft_eq]
  have hsmall : x * 2 ^ k < 2147483648 →
      shrInt impl (toInt32 (x * 2 ^ k)) k = Int.ofNat x := by
    intro h
    rw [toInt32_of_lt _ h, shrInt_ofNat, hback]
  refine ⟨?_, ?_, ?_⟩
  · unfold shrU32 shlU32
    rw [Nat.shiftLeft_eq, Nat.mod_eq_of_lt hp]
    exact hback
  · intro h31 hb
    rw [hshl]
    apply hsmall
    have hclear : ∀ j : Nat, j < 32 → 31 - k ≤ j → x.testBit j = false := by
      intro j hj hle
      by_cases e : j = 31 - k
      · rw [e]
        exact hb
      · exact hbits j hj (by omega)
    have h1 := mul_two_pow_lt x 31 k (by omega) (lt_two_pow_of_clear x (31 - k) hx hclear)
    norm_num at h1
    exact h1
  · intro h31 hlog
    rw [hshl]
    by_cases hs : x * 2 ^ k < 2147483648
    · exact hsmall hs
    · have hneg : ¬ (0 : Int) ≤ toInt32 (x * 2 ^ k) := by
        rw [toInt32_of_ge _ (Nat.le_of_not_lt hs) hp]
        simp only [Int.ofNat_eq_coe]
        omega
      have hu : toU32 (toInt32 (x * 2 ^ k)) = x * 2 ^ k := toU32_toInt32 _ hp
      unfold shrInt
      rw [if_neg hneg, hlog]
      unfold sarLogical
      rw [hu, hback]
      exact toInt32_of_lt x h31

/-- C13 (amended) at `x = 8`, `k = 1`, with arithmetic shift. -/
theorem shift_round_trip_witness :
    8 < 4294967296 ∧ 1 < 32
    ∧ (∀ j : Nat, j < 32 → 32 - 1 ≤ j → Nat.testBit 8 j = false)
    ∧ shrU32 (shlU32 8 1) 1 = 8
    ∧ shrInt implArith (shlInt (Int.ofNat 8) 1) 1 = Int.ofNat 8 :=
  have hb : ∀ j : Nat, j < 32 → 32 - 1 ≤ j → Nat.testBit 8 j = false := by decide
  have h := shift_round_trip implArith 8 1 (by decide) (by decide) hb
  ⟨by decide, by decide, hb, h.1, h.2.1 (by decide) (by decide)⟩

/-! ## The masked buffer -/

/-- The 13 bytes of the buffer after one pass of the loop with the mask of
the program, for either signedness of `char`. -/
theorem maskLoop_helloWorld (signed : Bool) :
    maskLoop signed 209 helloWorld
      = [153, 180, 189, 189, 190, 241, 134, 190, 163, 189, 181, 240, 209] := by
  have h := maskLoop_byte signed 209 (by decide) helloWorld helloWorld_length helloWorld_bytes
  have e : helloWorld.map (fun b => b ^^^ 209)
      = [153, 180, 189, 189, 190, 241, 134, 190, 163, 189, 181, 240, 209] := by decide
  rw [← e, ← h]
  rfl

/-- Bytes that are neither zero nor a percent sign are copied by `printf`,
which goes on with the memory behind them and the same arguments. -/
theorem printfAux_copy (b rest : List Nat) (args : List Int)
    (h0 : ∀ c ∈ b, c ≠ 0) (h37 : ∀ c ∈ b, c ≠ 37) :
    printfAux false (b ++ rest) args = (printfAux false rest args).map (fun out => b ++ out) := by
  induction b with
  | nil => simp
  | cons c b ih =>
    have hc0 : c ≠ 0 := h0 c (List.mem_cons_self c b)
    have hc37 : c ≠ 37 := h37 c (List.mem_cons_self c b)
    have ih' := ih (fun d hd => h0 d (List.mem_cons_of_mem c hd))
      (fun d hd => h37 d (List.mem_cons_of_mem c hd))
    show printfAux false (c :: (b ++ rest)) args = _
    rw [printfAux, if_neg hc0, if_neg hc37, ih', Option.map_map]
    rfl

/-- A zero-terminated read goes through bytes that are not zero. -/
theorem cString_append (b rest : List Nat) (h0 : ∀ c ∈ b, c ≠ 0) :
    cString (b ++ rest) = b ++ cString rest := by
  unfold cString
  apply List.takeWhile_append_of_pos
  intro a ha
  simpa using h0 a ha

theorem block9Masked_myString (impl : Impl) (s : State) :
    (block9Masked impl 209 s).myString
      = [153, 180, 189, 189, 190, 241, 134, 190, 163, 189, 181, 240, 209] := by
  have h := maskLoop_helloWorld impl.charSigned
  simp only [block9Masked, printLit, printMyString]
  exact h

theorem block9_split (impl : Impl) (m : Int) (s : State) :
    block9 impl m s = block9Rest impl m (block9Masked impl m s) := by
  rfl

/-- For a value below `2^31` the conversions `%i` and `%u` write the same
digits. -/
theorem fmtInt_toInt32 (v : Nat) (h : v < 2147483648) : fmtInt (toInt32 v) = fmtNat v := by
  rw [toInt32_of_lt v h]
  unfold fmtInt
  simp only [Int.ofNat_eq_coe]
  rw [if_neg (by omega), Int.natAbs_ofNat]

/-- The states after the seven reports, for every implementation. -/
theorem reportStates_spec (impl : Impl) :
    reportStates impl =
      [block1 initial, block2 impl (block1 initial),
        block3 impl (block2 impl (block1 initial)),
        block4 impl (block3 impl (block2 impl (block1 initial))),
        block5 3 (block4 impl (block3 impl (block2 impl (block1 initial)))),
        block6 3 9 1 (block5 3 (block4 impl (block3 impl (block2 impl (block1 initial))))),
        block8 3 (block7 9 (block6 3 9 1 (block5 3
          (block4 impl (block3 impl (block2 impl (block1 initial)))))))] := by
  rfl

theorem reportStates_foo (impl : Impl) :
    (reportStates impl).map (fun s => s.foo) = [8, 4, 0, 4, 8, 1, 1] := by
  rw [reportStates_spec]
  simp only [block1_spec, block2_spec, block3_spec, block4_spec, block5_spec, block6_spec,
    block7_spec, block8_spec, List.map_cons, List.map_nil]

theorem reportStates_bar (impl : Impl) :
    (reportStates impl).map (fun s => s.bar) = [8, 4, 0, impl.negShr (-8) 1, 8, 1, 9] := by
  rw [reportStates_spec]
  simp only [block1_spec, block2_spec, block3_spec, block4_spec, block5_spec, block6_spec,
    block7_spec, block8_spec, List.map_cons, List.map_nil]

/-- The masked buffer is written out as its 13 bytes followed by what
`printf` makes of the memory behind it. -/
theorem printf_masked (signed : Bool) (rest : List Nat) (args : List Int) :
    printf (maskLoop signed 209 helloWorld ++ rest) args
      = (printf rest args).map
          (fun out => [153, 180, 189, 189, 190, 241, 134, 190, 163, 189, 181, 240, 209] ++ out) := by
  rw [maskLoop_helloWorld]
  exact printfAux_copy _ rest args (by decide) (by decide)

theorem isReport_masked (signed : Bool) (rest : List Nat) :
    isReport (printf (maskLoop signed 209 helloWorld ++ rest) []) = false := by
  rw [printf_masked]
  cases printf rest [] with
  | none => rfl
  | some out => rfl

/-- The Foo/Bar reports among the entries of the output. -/
theorem run_reports (impl : Impl) :
    (run impl).out.filter isReport =
      [some (bytes "Foo: 8\nBar: 8\n\n"), some (bytes "Foo: 4\nBar: 4\n\n"),
        some (bytes "Foo: 0\nBar: 0\n\n"),
        some (bytes "Foo: 4\nBar: " ++ fmtInt (impl.negShr (-8) 1) ++ bytes "\n\n"),
        some (bytes "Foo: 8\nBar: 8\n\n"), some (bytes "Foo: 1\nBar: 1\n\n"),
        some (bytes "Foo: 1\nBar: 9\n\n")] := by
  have hm := isReport_masked impl.charSigned impl.after
  have h4 : isReport (some (bytes "Foo: 4\nBar: " ++ fmtInt (impl.negShr (-8) 1)
      ++ bytes "\n\n")) = true := by
    rfl
  rw [run_spec]
  simp only [List.filter_cons, List.filter_nil, hm, h4]
  rfl

/-- C14: at every Foo/Bar report of `main` the value of `foo` is below
`2^31` (it is 8, 4, 0, 4, 8, 1 and 1, at the reports of lines 146, 151, 158,
168, 181, 192 and 209), so `%i` writes for `foo` the same digits as the
unsigned conversion would; the reports of the output are the ones written
from these states. -/
theorem foo_in_signed_range (impl : Impl) :
    (reportStates impl).map (fun s => s.foo) = [8, 4, 0, 4, 8, 1, 1]
    ∧ (reportStates impl).length = 7
    ∧ ((run impl).out.filter isReport).length = 7
    ∧ (reportStates impl).map (fun s => decide (s.foo < 2147483648))
        = [true, true, true, true, true, true, true]
    ∧ (reportStates impl).map (fun s => fmtInt (toInt32 s.foo))
        = (reportStates impl).map (fun s => fmtNat s.foo)
    ∧ (run impl).out.filter isReport
        = (reportStates impl).map (fun s => some (bytes "Foo: " ++ fmtNat s.foo
            ++ bytes "\nBar: " ++ fmtInt s.bar ++ bytes "\n\n")) := by
  have hfoo := reportStates_foo impl
  have hbar := reportStates_bar impl
  have hrep := run_reports impl
  have hlen : (reportStates impl).length = 7 := by
    rw [reportStates_spec]
    rfl
  have hdec : (reportStates impl).map (fun s => decide (s.foo < 2147483648))
      = ((reportStates impl).map (fun s => s.foo)).map (fun v => decide (v < 2147483648)) := by
    rw [List.map_map]
    rfl
  have hfi : (reportStates impl).map (fun s => fmtInt (toInt32 s.foo))
      = ((reportStates impl).map (fun s => s.foo)).map (fun v => fmtInt (toInt32 v)) := by
    rw [List.map_map]
    rfl
  have hfn : (reportStates impl).map (fun s => fmtNat s.foo)
      = ((reportStates impl).map (fun s => s.foo)).map (fun v => fmtNat v) := by
    rw [List.map_map]
    rfl
  refine ⟨hfoo, hlen, ?_, ?_, ?_, ?_⟩
  · rw [hrep]
    rfl
  · rw [hdec, hfoo]
    decide
  · rw [hfi, hfn, hfoo]
    decide
  · rw [hrep, reportStates_spec]
    simp only [block1_spec, block2_spec, block3_spec, block4_spec, block5_spec, block6_spec,
      block7_spec, block8_spec, List.map_cons, List.map_nil, List.append_assoc]
    rfl

/-- C15: after the first masking loop of block 9 and before the second, the
first 12 bytes of the buffer are the bytes of "Hello World!" each combined
by exclusive or with `0xD1`, and the thirteenth, the former zero terminator,
is `0xD1`; this holds for either signedness of `char`. -/
theorem masked_buffer_contents (impl : Impl) (s : State) :
    (block9Masked impl 0xD1 s).myString
      = (bytes "Hello World!").map (fun b => b ^^^ 0xD1) ++ [0xD1]
    ∧ (block9Masked impl 0xD1 s).myString
      = [153, 180, 189, 189, 190, 241, 134, 190, 163, 189, 181, 240, 209]
    ∧ ((block9Masked impl 0xD1 s).myString.take 12).length = 12
    ∧ (block9Masked impl 0xD1 s).myString[12]? = some 0xD1
    ∧ block9 impl 0xD1 s = block9Rest impl 0xD1 (block9Masked impl 0xD1 s) := by
  have h := block9Masked_myString impl s
  refine ⟨?_, h, ?_, ?_, block9_split impl _ s⟩
  · rw [h]
    decide
  · rw [h]
    rfl
  · rw [h]
    rfl

/-- C16 on the code: the second `printf(myString)` does not stop after the 12
masked bytes. For every implementation the entry it adds to the output is
either undefined or holds the 12 masked bytes, the byte `0xD1` that replaced
the terminator, and the bytes that `printf` goes on reading behind the
array; it is never the 12 masked bytes alone. With a zero byte right behind
the array it is 13 bytes long. -/
theorem middle_emission_overruns (impl : Impl) :
    (run impl).out[10]?
      = some ((printf impl.after []).map (fun out =>
          (bytes "Hello World!").map (fun b => b ^^^ 0xD1) ++ [0xD1] ++ out))
    ∧ (run impl).out[10]? ≠ some (some ((bytes "Hello World!").map (fun b => b ^^^ 0xD1)))
    ∧ cString ((block9Masked impl 0xD1 initial).myString ++ impl.after)
        = (bytes "Hello World!").map (fun b => b ^^^ 0xD1) ++ [0xD1] ++ cString impl.after
    ∧ (run implArith).out[10]?
        = some (some [153, 180, 189, 189, 190, 241, 134, 190, 163, 189, 181, 240, 209])
    ∧ (run { implArith with after := [] }).out[10]? = some none := by
  have h10 : (run impl).out[10]?
      = some (printf (maskLoop impl.charSigned 209 helloWorld ++ impl.after) []) := by
    rw [run_spec]
    rfl
  have hm := printf_masked impl.charSigned impl.after []
  have e : (bytes "Hello World!").map (fun b => b ^^^ 0xD1) ++ [0xD1]
      = [153, 180, 189, 189, 190, 241, 134, 190, 163, 189, 181, 240, 209] := by decide
  refine ⟨?_, ?_, ?_, by decide, by decide⟩
  · rw [h10, hm, e]
  · rw [h10, hm]
    cases printf impl.after [] with
    | none => simp
    | some out =>
      intro h
      have h1 := congrArg (fun o => o.map (fun p => p.map List.length)) h
      have hl : (bytes "Hello World!").length = 12 := by decide
      simp [hl] at h1
  · rw [block9Masked_myString, e]
    exact cString_append _ _ (by decide)

/-- C17: `main` returns 1, which is not zero, for every implementation; the
last entry of its output is "Press enter to exit.", and with the keyboard
made explicit `main` takes exactly one key after it and returns 1. -/
theorem exit_status (impl : Impl) (key : Nat) (rest : List Nat) :
    (main impl).2 = 1
    ∧ (main impl).2 ≠ 0
    ∧ (main impl).1 = run impl
    ∧ (main impl).1.out.getLast? = some (some (bytes "Press enter to exit."))
    ∧ mainKeys impl (key :: rest) = some (run impl, rest, 1)
    ∧ mainKeys impl (key :: rest) = some ((main impl).1, rest, (main impl).2) := by
  have hne : (1 : Int) ≠ 0 := by decide
  refine ⟨rfl, hne, rfl, ?_, rfl, rfl⟩
  show (run impl).out.getLast? = _
  rw [run_spec]
  rfl

/-- C18: after the first masking loop none of the 13 bytes of the buffer is
zero (no byte of "Hello World!" is `0xD1`, and the terminator became `0xD1`),
so a zero-terminated read from index 0 takes all 13 bytes and goes on behind
the array: `printf` on the 13 bytes alone finds no terminator. -/
theorem masked_buffer_has_no_zero (impl : Impl) (s : State) :
    0 ∉ (block9Masked impl 0xD1 s).myString
    ∧ 0xD1 ∉ bytes "Hello World!"
    ∧ (block9Masked impl 0xD1 s).myString.length = 13
    ∧ cString (block9Masked impl 0xD1 s).myString = (block9Masked impl 0xD1 s).myString
    ∧ printf (block9Masked impl 0xD1 s).myString [] = none
    ∧ (∀ rest : List Nat, cString ((block9Masked impl 0xD1 s).myString ++ rest)
        = (block9Masked impl 0xD1 s).myString ++ cString rest)
    ∧ (∀ rest : List Nat, printf ((block9Masked impl 0xD1 s).myString ++ rest) []
        = (printf rest []).map (fun out => (block9Masked impl 0xD1 s).myString ++ out)) := by
  have h := block9Masked_myString impl s
  rw [h]
  refine ⟨by decide, by decide, by decide, by decide, by decide, ?_, ?_⟩
  · intro rest
    exact cString_append _ rest (by decide)
  · intro rest
    exact printfAux_copy _ rest [] (by decide) (by decide)

/-- C20: with the statement `myString[i] = myString[i] ^ 0xD1` read as
promotion of the `char` to `int` (sign-extending for a signed `char`,
zero-extending for an unsigned one), exclusive or with the `int` 209 and
truncation to eight bits, the 13 bytes of the buffer after the first loop
and after the second loop are the same for a signed and for an unsigned
`char`, and after the second loop they are the original bytes. The promoted
values do differ: the masked first byte 153 is promoted to -103 or to 153. -/
theorem char_signedness_independent (impl : Impl) (s : State) :
    maskLoop true 0xD1 helloWorld = maskLoop false 0xD1 helloWorld
    ∧ maskLoop true 0xD1 (maskLoop true 0xD1 helloWorld)
        = maskLoop false 0xD1 (maskLoop false 0xD1 helloWorld)
    ∧ maskLoop true 0xD1 (maskLoop true 0xD1 helloWorld) = helloWorld
    ∧ maskLoop false 0xD1 (maskLoop false 0xD1 helloWorld) = helloWorld
    ∧ (block9Masked { impl with charSigned := true } 0xD1 s).myString
        = (block9Masked { impl with charSigned := false } 0xD1 s).myString
    ∧ (block9 { impl with charSigned := true } 0xD1 s).myString
        = (block9 { impl with charSigned := false } 0xD1 s).myString
    ∧ (∀ (b : Nat) (m : Int), xorChar true b m = xorChar false b m)
    ∧ promote true 153 = -103
    ∧ promote false 153 = 153 := by
  have ht := maskLoop_maskLoop true 0xD1 helloWorld helloWorld_length helloWorld_bytes
  have hf := maskLoop_maskLoop false 0xD1 helloWorld helloWorld_length helloWorld_bytes
  refine ⟨?_, ?_, ht, hf, ?_, ?_, ?_, by decide, by decide⟩
  · rw [maskLoop_helloWorld, maskLoop_helloWorld]
  · rw [ht, hf]
  · rw [block9Masked_myString, block9Masked_myString]
  · rw [block9_spec, block9_spec]
  · intro b m
    rw [xorChar_eq, xorChar_eq]

end BitwiseOperators
